import Mathlib

/-!
Verification of the photo gallery frontend logic, embedded from
src/photo_gallery_frontend/src/App.js.

Conventions of the embedding:
- JS strings are Lean `String`; the JS string builtins used by the code
  (trim, toLowerCase, includes, join) are host builtins, modelled here
  structurally over the character list so that they evaluate by kernel
  reduction. JS trim removes the whitespace characters recognised by
  `Char.isWhitespace`; toLowerCase maps ASCII letters (`Char.toLower`),
  which covers every string the application produces.
- A JS `Set` is modelled as a duplicate-free list of its elements in
  insertion order: `has` is `List.contains`, `add` appends when absent,
  `delete` removes the element, `size` is the length, and iteration
  (`Array.from`) yields the list itself.
- JS numbers used as modal indices are modelled as `Int` (they stay small
  integers in the code); `null` becomes `Option`.
- Fallible operations return `Option`.
-/

namespace PhotoGallery

/-- Model of the JS builtin `String.prototype.toLowerCase` (ASCII letters). -/
def jsToLower (s : String) : String := String.mk (s.data.map Char.toLower)

/-- Model of the JS builtin `String.prototype.trim`: drop leading and
trailing whitespace. -/
def jsTrim (s : String) : String :=
  String.mk (((s.data.dropWhile Char.isWhitespace).reverse.dropWhile
      Char.isWhitespace).reverse)

/-- Contiguous-sublist test on character lists, used to model the JS builtin
includes on strings. -/
def occursIn (needle : List Char) : List Char → Bool
  | [] => needle.isEmpty
  | c :: cs => needle.isPrefixOf (c :: cs) || occursIn needle cs

/-- Model of the JS builtin includes: contiguous substring test. -/
def jsIncludes (hay needle : String) : Bool := occursIn needle.data hay.data

/-- Model of the JS builtin `Array.prototype.join(sep)` for string arrays:
the empty array joins to the empty string, a singleton to its element, and
otherwise the separator goes between consecutive elements. -/
def jsJoin (sep : String) : List String → String
  | [] => ""
  | [s] => s
  | s :: rest => s ++ sep ++ jsJoin sep rest

/-- JS `Set.prototype.has` on the list model of a set. -/
def setHas (l : List String) (x : String) : Bool := l.contains x

/-- JS `Set.prototype.add` on the list model of a set: append when absent. -/
def setAdd (l : List String) (x : String) : List String :=
  if l.contains x then l else l ++ [x]

/-- JS `Set.prototype.delete` on the list model of a set. -/
def setDelete (l : List String) (x : String) : List String := l.erase x

/-- JS `new Set(iterable)`: insert the elements in order, skipping
duplicates. -/
def setFromList (xs : List String) : List String := xs.foldl setAdd []

/-- A photo record (App.js data model, Step 01.03/01.06). Seed records leave
the URL fields to be filled in by `seededPhotos`; `metadata` is the ordered
key/value list of the JS object (`Object.entries` order). `clientOnly`
embeds the `_clientOnly` marker of records added during the session. -/
structure Photo where
  id : String
  title : String
  caption : String
  photographer : String
  tags : List String
  metadata : List (String × String)
  thumbUrl : String := ""
  fullUrl : String := ""
  clientOnly : Bool := false
deriving DecidableEq

/-- The `tagText` of the filter callback (App.js line 259): tags joined by
spaces, lowercased. -/
def tagText (p : Photo) : String := jsToLower (jsJoin " " p.tags)

/-- The `metadataText` of the filter callback (App.js lines 260-266): the
`key:value` entries joined by spaces, lowercased. -/
def metadataText (p : Photo) : String :=
  jsToLower (jsJoin " " (p.metadata.map (fun kv => kv.1 ++ ":" ++ kv.2)))

/-- The field list the query is matched against (App.js line 270). -/
def queryFields (p : Photo) : List String :=
  [p.title, p.caption, p.photographer, p.id, tagText p, metadataText p]

/-- The predicate of the `photos.filter` callback in `filteredPhotos`
(App.js lines 254-280). The `filter(Boolean)` of the source drops the
falsy (empty) fields; `String(field)` is the identity on strings. -/
def photoKeep (query : String) (selectedTags : List String)
    (favoritesOnly : Bool) (favoriteIds : List String) (p : Photo) : Bool :=
  let q := jsToLower (jsTrim query)
  let hasQuery : Bool := !(q == "")
  let hasTagFilter : Bool := decide (0 < selectedTags.length)
  let hasFavFilter : Bool := favoritesOnly
  let matchesFavorites : Bool :=
    if !hasFavFilter then true else setHas favoriteIds p.id
  let matchesQuery : Bool :=
    if !hasQuery then true
    else ((queryFields p).filter (fun s => !(s == ""))).any
      (fun field => jsIncludes (jsToLower field) q)
  let matchesTags : Bool :=
    if !hasTagFilter then true
    else p.tags.any (fun t => setHas selectedTags t)
  matchesFavorites && matchesQuery && matchesTags

/-- The filter engine `filteredPhotos` (App.js lines 246-281): when no
filter is active the full list is returned unchanged, otherwise the list is
filtered by the callback predicate. -/
def filteredPhotos (photos : List Photo) (query : String)
    (selectedTags : List String) (favoritesOnly : Bool)
    (favoriteIds : List String) : List Photo :=
  let q := jsToLower (jsTrim query)
  let hasQuery : Bool := !(q == "")
  let hasTagFilter : Bool := decide (0 < selectedTags.length)
  let hasFavFilter : Bool := favoritesOnly
  if !hasQuery && !hasTagFilter && !hasFavFilter then photos
  else photos.filter (photoKeep query selectedTags favoritesOnly favoriteIds)

/-- The modal out-of-range effect (App.js lines 286-289): while the modal is
open, if the active index is no longer a position of the filtered list, the
modal closes (`setActiveIndex(null)`). -/
def closeIfOutOfRange (filteredLength : Nat) : Option Int → Option Int
  | none => none
  | some i => if i ≥ (filteredLength : Int) then none else some i

/-- Embedding of `goPrev` (App.js lines 393-398): clamp the decremented index at 0; a
closed modal stays closed. -/
def goPrev : Option Int → Option Int
  | none => none
  | some i => some (max (i - 1) 0)

/-- Embedding of `goNext` (App.js lines 401-406): clamp the incremented index at the last
position of the filtered list; a closed modal stays closed. -/
def goNext (filteredLength : Nat) : Option Int → Option Int
  | none => none
  | some i => some (min (i + 1) ((filteredLength : Int) - 1))

/-- Embedding of `toggleFavorite` (App.js lines 409-417): flip membership of the
identifier in the favorites set (`String(photoId)` is the identity here). -/
def toggleFavorite (photoId : String) (favoriteIds : List String) :
    List String :=
  if setHas favoriteIds photoId then setDelete favoriteIds photoId
  else setAdd favoriteIds photoId

/-- Lower-case hexadecimal digit, as produced by JSON.stringify escapes. -/
def hexDigitChar (n : Nat) : Char :=
  if n < 10 then Char.ofNat (48 + n) else Char.ofNat (87 + n)

/-- The escape of one character inside a JSON string literal, as produced by
the host builtin `JSON.stringify`: quote, backslash and the named control
characters use short escapes, the remaining control characters use
`\u00XX`, everything else is copied verbatim. -/
def escChar (c : Char) : List Char :=
  if c = '"' then ['\\', '"']
  else if c = '\\' then ['\\', '\\']
  else if c = '\x08' then ['\\', 'b']
  else if c = '\x0c' then ['\\', 'f']
  else if c = '\n' then ['\\', 'n']
  else if c = '\r' then ['\\', 'r']
  else if c = '\t' then ['\\', 't']
  else if c.toNat < 32 then
    ['\\', 'u', '0', '0', hexDigitChar (c.toNat / 16), hexDigitChar (c.toNat % 16)]
  else [c]

/-- Escape the characters of a JSON string literal body. -/
def escStr : List Char → List Char
  | [] => []
  | c :: cs => escChar c ++ escStr cs

/-- A JSON string literal (`JSON.stringify` of one string). -/
def jsonQuote (s : String) : String := String.mk ('"' :: (escStr s.data ++ ['"']))

/-- Embedding of `writeFavoritesToStorage` (App.js lines 179-186): the value stored under
the favorites key is `JSON.stringify(Array.from(favoritesSet))`, the JSON
array of the member identifiers in insertion order. -/
def writeFavoritesToStorage (favoriteIds : List String) : String :=
  "[" ++ jsJoin "," (favoriteIds.map jsonQuote) ++ "]"

/-- A parsed JSON value, as produced by the host builtin `JSON.parse`.
Numbers are restricted to integer literals: fractional or exponent numerals
produce IEEE-754 doubles, which are outside this model (the parser below
rejects them). -/
inductive JsValue where
  | null
  | boolVal (b : Bool)
  | num (n : Int)
  | str (s : String)
  | arr (elems : List JsValue)
  | obj (members : List (String × JsValue))

/-- JSON whitespace. -/
def isJsonWs (c : Char) : Bool := c = ' ' || c = '\t' || c = '\n' || c = '\r'

/-- Skip JSON whitespace. -/
def skipWs : List Char → List Char
  | [] => []
  | c :: cs => if isJsonWs c then skipWs cs else c :: cs

/-- Value of one hexadecimal digit. -/
def hexVal (c : Char) : Option Nat :=
  if '0' ≤ c ∧ c ≤ '9' then some (c.toNat - 48)
  else if 'a' ≤ c ∧ c ≤ 'f' then some (c.toNat - 87)
  else if 'A' ≤ c ∧ c ≤ 'F' then some (c.toNat - 55)
  else none

/-- The character named by a short JSON escape. -/
def unescape (c : Char) : Option Char :=
  if c = '"' then some '"'
  else if c = '\\' then some '\\'
  else if c = '/' then some '/'
  else if c = 'b' then some '\x08'
  else if c = 'f' then some '\x0c'
  else if c = 'n' then some '\n'
  else if c = 'r' then some '\r'
  else if c = 't' then some '\t'
  else none

/-- Parse the body of a JSON string literal after the opening quote,
returning the content and the input after the closing quote. Surrogate
pairs in `\u` escapes are outside the model (each escape becomes one
scalar). -/
def parseStringBody : List Char → Option (List Char × List Char)
  | [] => none
  | c :: cs =>
    if c = '"' then some ([], cs)
    else if c = '\\' then
      match cs with
      | [] => none
      | e :: cs1 =>
        if e = 'u' then
          match cs1 with
          | a :: b :: x :: d :: cs2 =>
            match hexVal a, hexVal b, hexVal x, hexVal d with
            | some va, some vb, some vx, some vd =>
              (parseStringBody cs2).map
                (fun p => (Char.ofNat (((va * 16 + vb) * 16 + vx) * 16 + vd) :: p.1, p.2))
            | _, _, _, _ => none
          | _ => none
        else
          match unescape e with
          | some ch => (parseStringBody cs1).map (fun p => (ch :: p.1, p.2))
          | none => none
    else if c.toNat < 32 then none
    else (parseStringBody cs).map (fun p => (c :: p.1, p.2))

/-- Digits to a natural number. -/
def digitsToNat (ds : List Char) : Nat :=
  ds.foldl (fun a c => a * 10 + (c.toNat - 48)) 0

/-- Parse a JSON number literal. Only integer numerals are modelled: a
fractional part or an exponent yields an IEEE-754 double in the host,
outside this model, and is rejected here. -/
def parseNumber (cs : List Char) : Option (JsValue × List Char) :=
  let (neg, cs1) := match cs with
    | '-' :: r => (true, r)
    | _ => (false, cs)
  let ds := cs1.takeWhile Char.isDigit
  let rest := cs1.dropWhile Char.isDigit
  if ds.isEmpty then none
  else if 1 < ds.length ∧ ds.headD 'x' = '0' then none
  else
    match rest with
    | '.' :: _ => none
    | 'e' :: _ => none
    | 'E' :: _ => none
    | _ =>
      let n : Int := (digitsToNat ds : Nat)
      some (.num (if neg then -n else n), rest)

mutual

/-- Parse one JSON value (fuel-based recursion; the fuel bounds the nesting
and element count and is chosen large enough by `jsonParse`). -/
def parseJsonValue : Nat → List Char → Option (JsValue × List Char)
  | 0, _ => none
  | fuel + 1, cs =>
    match skipWs cs with
    | [] => none
    | c :: rest =>
      if c = 'n' then
        match rest with
        | 'u' :: 'l' :: 'l' :: r => some (.null, r)
        | _ => none
      else if c = 't' then
        match rest with
        | 'r' :: 'u' :: 'e' :: r => some (.boolVal true, r)
        | _ => none
      else if c = 'f' then
        match rest with
        | 'a' :: 'l' :: 's' :: 'e' :: r => some (.boolVal false, r)
        | _ => none
      else if c = '"' then
        (parseStringBody rest).map (fun p => (.str (String.mk p.1), p.2))
      else if c = '[' then
        match skipWs rest with
        | ']' :: r => some (.arr [], r)
        | cs2 => (parseJsonElements fuel cs2).map (fun p => (.arr p.1, p.2))
      else if c = '{' then
        match skipWs rest with
        | '}' :: r => some (.obj [], r)
        | cs2 => (parseJsonMembers fuel cs2).map (fun p => (.obj p.1, p.2))
      else if c = '-' || c.isDigit then parseNumber (c :: rest)
      else none

/-- Parse the elements of a nonempty JSON array up to and including the
closing bracket. -/
def parseJsonElements : Nat → List Char → Option (List JsValue × List Char)
  | 0, _ => none
  | fuel + 1, cs =>
    (parseJsonValue fuel cs).bind (fun pv =>
      match skipWs pv.2 with
      | ',' :: r2 => (parseJsonElements fuel r2).map (fun p => (pv.1 :: p.1, p.2))
      | ']' :: r2 => some ([pv.1], r2)
      | _ => none)

/-- Parse the members of a nonempty JSON object up to and including the
closing brace. -/
def parseJsonMembers : Nat → List Char → Option (List (String × JsValue) × List Char)
  | 0, _ => none
  | fuel + 1, cs =>
    match skipWs cs with
    | '"' :: rest =>
      (parseStringBody rest).bind (fun pk =>
        match skipWs pk.2 with
        | ':' :: r2 =>
          (parseJsonValue fuel r2).bind (fun pv =>
            match skipWs pv.2 with
            | ',' :: r4 =>
              (parseJsonMembers fuel r4).map
                (fun p => ((String.mk pk.1, pv.1) :: p.1, p.2))
            | '}' :: r4 => some ([(String.mk pk.1, pv.1)], r4)
            | _ => none)
        | _ => none)
    | _ => none

end

/-- Model of the host builtin `JSON.parse` over the modelled grammar: parse
one value and require only whitespace to remain. Returns `none` where the
host would throw. -/
def jsonParse (s : String) : Option JsValue :=
  match parseJsonValue (s.data.length + 2) s.data with
  | some (v, rest) => if skipWs rest = [] then some v else none
  | none => none

mutual

/-- Model of the JS string coercion `String(v)` on parsed JSON values:
strings are themselves, null and booleans print their names, integers print
in decimal (faithful below the double precision limit), arrays join their
parts with commas printing null elements as empty, objects print as the
generic object tag. -/
def jsToString : JsValue → String
  | .null => "null"
  | .boolVal true => "true"
  | .boolVal false => "false"
  | .num n => toString n
  | .str s => s
  | .arr xs => jsJoin "," (jsArrParts xs)
  | .obj _ => "[object Object]"

/-- The parts of the array coercion: `Array.prototype.join` prints null
elements as the empty string. -/
def jsArrParts : List JsValue → List String
  | [] => []
  | .null :: vs => "" :: jsArrParts vs
  | v :: vs => jsToString v :: jsArrParts vs

end

/-- Embedding of `readFavoritesFromStorage` (App.js lines 167-177): a missing or empty
entry, a value the host `JSON.parse` rejects, or a parsed value that is not
an array all give the empty set; an array gives the set of its elements
coerced to strings (`new Set(parsed.map(String))`). -/
def readFavoritesFromStorage (raw : Option String) : List String :=
  match raw with
  | none => []
  | some r =>
    if r == "" then []
    else
      match jsonParse r with
      | some (.arr xs) => setFromList (xs.map jsToString)
      | _ => []

/-- Embedding of `makePhotoUrl` (App.js lines 124-126). The seed identifiers are plain
lower-case ASCII letters, on which the `encodeURIComponent` of the source is
the identity. -/
def makePhotoUrl (seed : String) (width height : Nat) : String :=
  "https://picsum.photos/seed/" ++ seed ++ "/" ++ toString width ++ "/" ++
    toString height

/-- The seed records `PHOTO_SEED` (App.js lines 21-118). -/
def PHOTO_SEED : List Photo := [
  { id := "sea", title := "Sea",
    caption := "Calm ocean tones with soft horizon light.",
    photographer := "Kavia Studio", tags := ["Nature", "Water", "Coast"],
    metadata := [("location", "Coastline"), ("camera", "KaviaCam X1"),
      ("lens", "35mm"), ("year", "2024")] },
  { id := "forest", title := "Forest",
    caption := "Evergreen canopy with filtered morning sun.",
    photographer := "Kavia Studio", tags := ["Nature", "Trees", "Green"],
    metadata := [("location", "National Park"), ("camera", "KaviaCam X1"),
      ("year", "2024")] },
  { id := "city", title := "City",
    caption := "Clean lines and depth—an urban study in contrast.",
    photographer := "Kavia Studio", tags := ["Urban", "Architecture"],
    metadata := [("location", "Downtown"), ("camera", "KaviaCam X2"),
      ("lens", "24mm"), ("year", "2023")] },
  { id := "mountain", title := "Mountain",
    caption := "Ridgelines and clouds—high altitude serenity.",
    photographer := "Kavia Studio",
    tags := ["Nature", "Mountains", "Adventure"],
    metadata := [("location", "Highlands"), ("camera", "KaviaCam X2"),
      ("year", "2023")] },
  { id := "desert", title := "Desert",
    caption := "Dunes shaped by wind with warm, golden shadows.",
    photographer := "Kavia Studio", tags := ["Nature", "Desert", "Sand"],
    metadata := [("location", "Dune Field"), ("camera", "KaviaCam X1"),
      ("lens", "50mm"), ("year", "2022")] },
  { id := "aurora", title := "Aurora",
    caption := "Night sky ribbons with a gentle glow.",
    photographer := "Kavia Studio", tags := ["Night", "Nature", "Sky"],
    metadata := [("location", "Northern Lights"), ("camera", "KaviaCam X3"),
      ("year", "2024")] },
  { id := "flowers", title := "Flowers",
    caption := "Bright petals with soft background bokeh.",
    photographer := "Kavia Studio", tags := ["Nature", "Plants", "Macro"],
    metadata := [("location", "Botanical Garden"), ("camera", "KaviaCam X2"),
      ("lens", "85mm")] },
  { id := "waterfall", title := "Waterfall",
    caption := "A smooth cascade framed by dark stone.",
    photographer := "Kavia Studio", tags := ["Nature", "Water", "Adventure"],
    metadata := [("location", "River Gorge"), ("camera", "KaviaCam X1"),
      ("year", "2022")] },
  { id := "architecture", title := "Architecture",
    caption := "Modern geometry and repeating patterns in light.",
    photographer := "Kavia Studio",
    tags := ["Architecture", "Design", "Urban"],
    metadata := [("location", "Civic Center"), ("camera", "KaviaCam X3"),
      ("lens", "24mm")] },
  { id := "night", title := "Night",
    caption := "Neon ambience—low light with crisp highlights.",
    photographer := "Kavia Studio", tags := ["Night", "Urban", "Neon"],
    metadata := [("location", "Night Market"), ("camera", "KaviaCam X3"),
      ("year", "2023")] },
  { id := "lake", title := "Lake",
    caption := "Mirror reflections with a still, quiet mood.",
    photographer := "Kavia Studio", tags := ["Nature", "Water", "Calm"],
    metadata := [("location", "Alpine Lake"), ("camera", "KaviaCam X2"),
      ("year", "2024")] },
  { id := "canyon", title := "Canyon",
    caption := "Layered stone textures—time etched into color.",
    photographer := "Kavia Studio", tags := ["Nature", "Desert", "Geology"],
    metadata := [("location", "Canyon Rim"), ("camera", "KaviaCam X1"),
      ("lens", "35mm"), ("year", "2022")] }]

/-- The grid height cycle of `seededPhotos` (App.js line 193). -/
def gridHeights : List Nat := [900, 820, 760, 980, 840, 920]

/-- The source computes Math.round of h times 1.2; for the six heights used the
double computation rounds to the exact rational result, modelled as
round-half-up integer arithmetic. -/
def fullHeight (h : Nat) : Nat := (h * 12 + 5) / 10

/-- Embedding of `seededPhotos` (App.js lines 191-203): the seed records with grid and
modal image URLs attached. -/
def seededPhotos : List Photo :=
  PHOTO_SEED.enum.map (fun ip =>
    let h := gridHeights.getD (ip.1 % gridHeights.length) 0
    { ip.2 with
      thumbUrl := makePhotoUrl ip.2.id 900 h,
      fullUrl := makePhotoUrl ip.2.id 1800 (fullHeight h) })

/-- ASCII scheme character after the first (WHATWG URL scheme grammar). -/
def isSchemeChar (c : Char) : Bool :=
  c.isAlpha || c.isDigit || c = '+' || c = '-' || c = '.'

/-- Split a leading URL scheme: an ASCII letter, scheme characters, then a
colon. Returns the scheme and the input after the colon; `none` when the
input has no scheme, where the host URL constructor throws (no base URL is
supplied anywhere in the source). -/
def splitScheme (cs : List Char) : Option (List Char × List Char) :=
  match cs with
  | [] => none
  | c :: rest =>
    if c.isAlpha then
      match rest.dropWhile isSchemeChar with
      | ':' :: tail => some (c :: rest.takeWhile isSchemeChar, tail)
      | _ => none
    else none

/-- Forbidden host characters (WHATWG forbidden host code points, plus the
remaining control characters, modelled conservatively). -/
def forbiddenHostChar (c : Char) : Bool :=
  c.toNat ≤ 32 || c = '#' || c = '/' || c = ':' || c = '<' || c = '>' ||
    c = '?' || c = '@' || c = '[' || c = '\\' || c = ']' || c = '^' || c = '|'

/-- Embedding of `normalizeHttpUrl` (App.js lines 132-140). The `new URL` constructor is
a host builtin, modelled here over the inputs the claims need: a string
with no scheme fails to parse (the constructor throws, caught as `null`);
a scheme other than http/https parses but fails the protocol test; an
http/https URL requires a nonempty valid host after the slashes, with
credentials and port split off, and its serialization is modelled as the
trimmed input (no claim inspects the serialized text). -/
def normalizeHttpUrl (value : String) : Option String :=
  let t := jsTrim value
  match splitScheme t.data with
  | none => none
  | some (scheme, rest) =>
    if jsToLower (String.mk scheme) == "http" ||
        jsToLower (String.mk scheme) == "https" then
      let authority := (rest.dropWhile (fun c => c = '/' || c = '\\')).takeWhile
        (fun c => !(c = '/' || c = '?' || c = '#' || c = '\\'))
      let hostPort := (authority.reverse.takeWhile (fun c => c ≠ '@')).reverse
      let host := hostPort.takeWhile (fun c => c ≠ ':')
      let port := (hostPort.dropWhile (fun c => c ≠ ':')).drop 1
      if !host.isEmpty && host.all (fun c => !forbiddenHostChar c) &&
          port.all Char.isDigit then
        some t
      else none
    else none

/-- Embedding of `makeClientPhoto` (App.js lines 142-159). The identifier (built from
`Date.now()` and `Math.random()`) and the `added` timestamp are
nondeterministic host values, passed in as parameters. -/
def makeClientPhoto (title url : String) (sourceIsFile : Bool)
    (newId addedAt : String) : Photo :=
  let safeTitle0 := jsTrim (if title == "" then "User image" else title)
  let safeTitle := if safeTitle0 == "" then "User image" else safeTitle0
  { id := newId,
    title := safeTitle,
    caption := if sourceIsFile then "Added from local file (client-only)."
      else "Added from URL (client-only).",
    photographer := "You",
    tags := ["User"],
    metadata := [("source", if sourceIsFile then "local file (in-memory)"
        else "url"),
      ("added", addedAt)],
    thumbUrl := url,
    fullUrl := url,
    clientOnly := true }

/-- The add-image status (App.js line 220). -/
inductive AddStatus where
  | idle
  | errorStatus (message : String)
  | success (message : String)
deriving DecidableEq

/-- The component state touched by the add-image URL path. -/
structure GalleryState where
  photos : List Photo
  selectedTags : List String
  addUrl : String
  addTitle : String
  addStatus : AddStatus

/-- Embedding of the URL branch of `addImageToGallery` (App.js lines 422-450): an input
the URL validator rejects sets an error status and changes nothing else;
otherwise the new client record is prepended, the User tag is auto-selected,
the inputs reset and a success status is set. -/
def addImageFromUrl (s : GalleryState) (newId addedAt : String) :
    GalleryState :=
  match normalizeHttpUrl s.addUrl with
  | none =>
    { s with addStatus := .errorStatus "Please enter a valid http(s) image URL." }
  | some normalized =>
    let title := if jsTrim s.addTitle == "" then "Image from URL"
      else jsTrim s.addTitle
    let item := makeClientPhoto title normalized false newId addedAt
    { photos := item :: s.photos,
      selectedTags := setAdd s.selectedTags "User",
      addUrl := "",
      addTitle := "",
      addStatus := .success ("Added \"" ++ item.title ++
        "\" from URL (client-only).") }

/-- The favorites state together with its persisted storage entry (the
value stored under the favorites key, `none` when absent). -/
structure FavoritesState where
  favoriteIds : List String
  storageEntry : Option String

/-- A favorite toggle together with the write-through effect (App.js lines
224-226): after every change of the favorites set, the storage entry is the
serialization of the new set. -/
def applyToggleFavorite (photoId : String) (s : FavoritesState) :
    FavoritesState :=
  let next := toggleFavorite photoId s.favoriteIds
  { favoriteIds := next,
    storageEntry := some (writeFavoritesToStorage next) }

/-- The six searchable texts of a record as the spec lists them: title,
caption, photographer, identifier, joined tags, joined metadata. Written
from the words of the spec (section 4.1) for the refinement statement, not
from the source. -/
def specSearchFields (p : Photo) : List String :=
  [p.title, p.caption, p.photographer, p.id, jsJoin " " p.tags,
    jsJoin " " (p.metadata.map (fun kv => kv.1 ++ ":" ++ kv.2))]

/-- The filter contract written from the words of the spec (section 4.1),
not from the source: keep a record iff (a) when favorites-only is set its
identifier is in the favorites set, and (b) when a query is present (the
trimmed search text is nonempty) some searchable field contains the query
as a case-insensitive substring, and (c) when any tags are selected the
record has at least one tag in the selected set. -/
def specFilterKeep (query : String) (selectedTags : List String)
    (favoritesOnly : Bool) (favoriteIds : List String) (p : Photo) : Bool :=
  (if favoritesOnly then setHas favoriteIds p.id else true) &&
  (if jsTrim query == "" then true
    else (specSearchFields p).any
      (fun f => jsIncludes (jsToLower f) (jsToLower (jsTrim query)))) &&
  (if selectedTags.isEmpty then true
    else p.tags.any (fun t => setHas selectedTags t))

end PhotoGallery

namespace PhotoGallery

theorem charOfNat_toNat (n : Nat) (h : n < 55296) : (Char.ofNat n).toNat = n := by
  unfold Char.ofNat
  split
  case isTrue h2 => rfl
  case isFalse h2 => exact absurd (Or.inl h) h2

theorem char_toLower_idem (c : Char) : (c.toLower).toLower = c.toLower := by
  simp only [Char.toLower]
  by_cases h : c.toNat ≥ 65 ∧ c.toNat ≤ 90
  · rw [if_pos h]
    have hv : (Char.ofNat (c.toNat + 32)).toNat = c.toNat + 32 :=
      charOfNat_toNat _ (by omega)
    rw [if_neg (by rw [hv]; omega)]
  · rw [if_neg h, if_neg h]

theorem jsToLower_idem (s : String) : jsToLower (jsToLower s) = jsToLower s := by
  have hc : Char.toLower ∘ Char.toLower = Char.toLower := funext char_toLower_idem
  simp [jsToLower, List.map_map, hc]

theorem jsToLower_eq_empty_iff (s : String) : jsToLower s = "" ↔ s = "" := by
  cases s with
  | mk data =>
    simp [jsToLower, String.ext_iff]

/-- Claim C6: with an empty query, no selected tags and favorites-only off, the
filter engine returns the full photo list unchanged. -/
theorem filteredPhotos_no_filter_identity (photos : List Photo)
    (favoriteIds : List String) :
    filteredPhotos photos "" [] false favoriteIds = photos := rfl

/-- Claim C9: prev and next leave a closed viewer closed. -/
theorem goPrev_goNext_closed (filteredLength : Nat) :
    goPrev none = none ∧ goNext filteredLength none = none := ⟨rfl, rfl⟩

/-- Claim C3: from an open viewer, prev moves to the decremented index clamped at
0 and next to the incremented index clamped at the last position; in
particular nine presses of next from index 0 over 5 photos end at 4. -/
theorem goPrev_goNext_clamp (i : Int) (filteredLength : Nat) :
    goPrev (some i) = some (max (i - 1) 0) ∧
    goNext filteredLength (some i) =
      some (min (i + 1) ((filteredLength : Int) - 1)) ∧
    Nat.iterate (goNext 5) 9 (some 0) = some 4 :=
  ⟨rfl, rfl, by decide⟩

/-- Claim C2: while the viewer is open at index i, a filtered-list length less
than or equal to i closes the viewer, and any index that survives the check
is a valid position of the filtered list. -/
theorem closeIfOutOfRange_spec (filteredLength : Nat) (i : Int) :
    ((filteredLength : Int) ≤ i →
      closeIfOutOfRange filteredLength (some i) = none) ∧
    (0 ≤ i → ∀ j, closeIfOutOfRange filteredLength (some i) = some j →
      0 ≤ j ∧ j < (filteredLength : Int)) := by
  constructor
  · intro h
    simp [closeIfOutOfRange, h]
  · intro h0 j hj
    by_cases h : i ≥ (filteredLength : Int)
    · simp [closeIfOutOfRange, h] at hj
    · simp [closeIfOutOfRange, h] at hj
      omega

theorem closeIfOutOfRange_spec_witness :
    closeIfOutOfRange 3 (some 5) = none ∧ (0 ≤ (1 : Int) ∧ (1 : Int) < 3) :=
  ⟨(closeIfOutOfRange_spec 3 5).1 (by decide),
    (closeIfOutOfRange_spec 3 1).2 (by decide) 1 (by decide)⟩

/-- Claim C10: the filter engine depends on the query only through its trimmed
form, so queries with equal trims filter identically; a whitespace-only
query behaves exactly like the empty query. -/
theorem filteredPhotos_trim_query (photos : List Photo)
    (selectedTags : List String) (favoritesOnly : Bool)
    (favoriteIds : List String) (q1 q2 : String) :
    (jsTrim q1 = jsTrim q2 →
      filteredPhotos photos q1 selectedTags favoritesOnly favoriteIds =
        filteredPhotos photos q2 selectedTags favoritesOnly favoriteIds) ∧
    (jsTrim q1 = "" →
      filteredPhotos photos q1 selectedTags favoritesOnly favoriteIds =
        filteredPhotos photos "" selectedTags favoritesOnly favoriteIds) := by
  have hk : ∀ q q', jsTrim q = jsTrim q' →
      photoKeep q selectedTags favoritesOnly favoriteIds =
        photoKeep q' selectedTags favoritesOnly favoriteIds :=
    fun q q' hq => funext fun p => by simp only [photoKeep, hq]
  constructor
  · intro h
    simp only [filteredPhotos, h, hk q1 q2 h]
  · intro h
    have h2 : jsTrim q1 = jsTrim "" := by rw [h]; rfl
    simp only [filteredPhotos, h2, hk q1 "" h2]

theorem filteredPhotos_trim_query_witness :
    filteredPhotos seededPhotos "  lake " [] false [] =
      filteredPhotos seededPhotos "lake" [] false [] ∧
    filteredPhotos seededPhotos "   " [] false [] =
      filteredPhotos seededPhotos "" [] false [] :=
  ⟨(filteredPhotos_trim_query seededPhotos [] false [] "  lake " "lake").1
      (by decide),
    (filteredPhotos_trim_query seededPhotos [] false [] "   " "").2
      (by decide)⟩

end PhotoGallery

namespace PhotoGallery

theorem tags_any_singleton (tags : List String) (t : String) :
    tags.any (fun tg => setHas [t] tg) = tags.contains t := by
  rw [Bool.eq_iff_iff]
  simp [setHas]

/-- Claim C7: tag filtering matches selected tags against record tags by
exact case-sensitive string equality: with only the tag filter active,
selecting tag t keeps exactly the records with some tag equal to t; on the
seed list, selecting Nature keeps the nine records tagged Nature, while the
lower-cased name nature matches nothing. -/
theorem tagFilter_exact_match (photos : List Photo)
    (favoriteIds : List String) (t : String) :
    (filteredPhotos photos "" [t] false favoriteIds =
      photos.filter (fun p => p.tags.contains t)) ∧
    (filteredPhotos seededPhotos "" ["Nature"] false []).length = 9 ∧
    ((filteredPhotos seededPhotos "" ["Nature"] false []).all
      (fun p => p.tags.contains "Nature") = true) ∧
    filteredPhotos seededPhotos "" ["nature"] false [] = [] := by
  refine ⟨?_, by decide, by decide, by decide⟩
  show List.filter (photoKeep "" [t] false favoriteIds) photos = _
  apply List.filter_congr
  intro p _
  show photoKeep "" [t] false favoriteIds p = _
  simp only [photoKeep, tags_any_singleton]
  rfl

end PhotoGallery

namespace PhotoGallery

theorem any_filter_nonempty (l : List String) (f : String → Bool)
    (hf : f "" = false) :
    (l.filter (fun s => !(s == ""))).any f = l.any f := by
  induction l with
  | nil => rfl
  | cons a as ih =>
    by_cases h : a = ""
    · subst h
      simp [List.filter_cons, hf, ih]
    · simp [List.filter_cons, h, ih]

theorem jsIncludes_empty_hay (needle : String) (h : needle ≠ "") :
    jsIncludes "" needle = false := by
  cases needle with
  | mk data =>
    cases data with
    | nil => exact absurd rfl h
    | cons c cs => rfl

theorem photoKeep_eq_spec (query : String) (selectedTags : List String)
    (favoritesOnly : Bool) (favoriteIds : List String) (p : Photo) :
    photoKeep query selectedTags favoritesOnly favoriteIds p =
      specFilterKeep query selectedTags favoritesOnly favoriteIds p := by
  simp only [photoKeep, specFilterKeep]
  have hfav : (if !favoritesOnly then true else setHas favoriteIds p.id) =
      (if favoritesOnly then setHas favoriteIds p.id else true) := by
    cases favoritesOnly <;> rfl
  have htag : (if !decide (0 < selectedTags.length) then true
        else p.tags.any (fun t => setHas selectedTags t)) =
      (if selectedTags.isEmpty then true
        else p.tags.any (fun t => setHas selectedTags t)) := by
    cases selectedTags with
    | nil => rfl
    | cons a as => simp
  have hquery : (if !(!(jsToLower (jsTrim query) == "")) then true
        else ((queryFields p).filter (fun s => !(s == ""))).any
          (fun field => jsIncludes (jsToLower field) (jsToLower (jsTrim query)))) =
      (if jsTrim query == "" then true
        else (specSearchFields p).any
          (fun f => jsIncludes (jsToLower f) (jsToLower (jsTrim query)))) := by
    by_cases hq : jsTrim query = ""
    · rw [hq]
      rfl
    · have hql : jsToLower (jsTrim query) ≠ "" :=
        fun h => hq ((jsToLower_eq_empty_iff _).mp h)
      rw [if_neg (by simpa using hql), if_neg (by simpa using hq)]
      rw [any_filter_nonempty]
      · simp only [queryFields, specSearchFields, List.any_cons, List.any_nil,
          tagText, metadataText, jsToLower_idem]
      · show jsIncludes (jsToLower "") (jsToLower (jsTrim query)) = false
        exact jsIncludes_empty_hay _ hql
  rw [hfav, htag, hquery]

/-- Claim C1: the filter engine returns exactly the subsequence of records
satisfying the conjunction of the favorites, query and tag predicates as the
spec states them (the spec-side predicate is `specFilterKeep`); when no
record matches, the result is the empty list. -/
theorem filteredPhotos_refines_spec (photos : List Photo) (query : String)
    (selectedTags : List String) (favoritesOnly : Bool)
    (favoriteIds : List String) :
    (filteredPhotos photos query selectedTags favoritesOnly favoriteIds =
      photos.filter (specFilterKeep query selectedTags favoritesOnly favoriteIds)) ∧
    ((∀ p ∈ photos,
        specFilterKeep query selectedTags favoritesOnly favoriteIds p = false) →
      filteredPhotos photos query selectedTags favoritesOnly favoriteIds = []) := by
  have hmain : filteredPhotos photos query selectedTags favoritesOnly favoriteIds =
      photos.filter (specFilterKeep query selectedTags favoritesOnly favoriteIds) := by
    simp only [filteredPhotos]
    split
    case isTrue h =>
      rw [Bool.and_eq_true, Bool.and_eq_true] at h
      obtain ⟨⟨h1, h2⟩, h3⟩ := h
      have hq : jsTrim query = "" := by
        have : jsToLower (jsTrim query) = "" := by
          simpa using h1
        exact (jsToLower_eq_empty_iff _).mp this
      have htags : selectedTags = [] := by
        cases selectedTags with
        | nil => rfl
        | cons a as => simp at h2
      have hfav : favoritesOnly = false := by
        simpa using h3
      symm
      rw [List.filter_eq_self]
      intro p _
      simp only [specFilterKeep, hq, htags, hfav]
      rfl
    case isFalse h =>
      exact List.filter_congr
        (fun p _ => photoKeep_eq_spec query selectedTags favoritesOnly favoriteIds p)
  refine ⟨hmain, fun hall => ?_⟩
  rw [hmain, List.filter_eq_nil_iff]
  intro p hp
  simp [hall p hp]

theorem filteredPhotos_refines_spec_witness :
    filteredPhotos seededPhotos "kaviacam x3" ["Night"] false [] =
      seededPhotos.filter (specFilterKeep "kaviacam x3" ["Night"] false []) ∧
    filteredPhotos seededPhotos "xyzzy" [] false [] = [] :=
  ⟨(filteredPhotos_refines_spec seededPhotos "kaviacam x3" ["Night"] false []).1,
    (filteredPhotos_refines_spec seededPhotos "xyzzy" [] false []).2 (by decide)⟩

end PhotoGallery

namespace PhotoGallery

theorem setAdd_has_self (l : List String) (x : String) :
    setHas (setAdd l x) x = true := by
  unfold setAdd setHas
  by_cases h : l.contains x
  · rw [if_pos h]
    exact h
  · rw [if_neg h]
    simp

/-- Claim C4: an add-image URL submission the validator rejects (empty, malformed
or non-http(s) input) sets an error status and leaves the photo list
unchanged; an accepted URL prepends a new client record that carries the
User tag, and the User tag becomes selected so the record is discoverable
in the tag-filter UI. -/
theorem addImageFromUrl_spec (s : GalleryState) (newId addedAt : String) :
    (normalizeHttpUrl s.addUrl = none →
      (addImageFromUrl s newId addedAt).photos = s.photos ∧
      (addImageFromUrl s newId addedAt).addStatus =
        .errorStatus "Please enter a valid http(s) image URL.") ∧
    (∀ u, normalizeHttpUrl s.addUrl = some u →
      ∃ item, (addImageFromUrl s newId addedAt).photos = item :: s.photos ∧
        item.tags = ["User"] ∧ item.clientOnly = true ∧ item.fullUrl = u ∧
        setHas (addImageFromUrl s newId addedAt).selectedTags "User" = true) := by
  constructor
  · intro h
    unfold addImageFromUrl
    rw [h]
    exact ⟨rfl, rfl⟩
  · intro u h
    refine ⟨makeClientPhoto (if jsTrim s.addTitle == "" then "Image from URL"
      else jsTrim s.addTitle) u false newId addedAt, ?_⟩
    unfold addImageFromUrl
    rw [h]
    exact ⟨rfl, rfl, rfl, rfl, setAdd_has_self _ _⟩

theorem addImageFromUrl_spec_witness :
    ((addImageFromUrl ⟨seededPhotos, [], "javascript:alert(1)", "", .idle⟩
        "client:1" "now").photos = seededPhotos ∧
      (addImageFromUrl ⟨seededPhotos, [], "javascript:alert(1)", "", .idle⟩
        "client:1" "now").addStatus =
        .errorStatus "Please enter a valid http(s) image URL.") ∧
    (∃ item, (addImageFromUrl ⟨seededPhotos, [], "https://example.com/cat.jpg",
        "", .idle⟩ "client:1" "now").photos = item :: seededPhotos ∧
      item.tags = ["User"] ∧ item.clientOnly = true ∧
      item.fullUrl = "https://example.com/cat.jpg" ∧
      setHas (addImageFromUrl ⟨seededPhotos, [], "https://example.com/cat.jpg",
        "", .idle⟩ "client:1" "now").selectedTags "User" = true) :=
  ⟨(addImageFromUrl_spec ⟨seededPhotos, [], "javascript:alert(1)", "", .idle⟩
      "client:1" "now").1 (by decide),
    (addImageFromUrl_spec ⟨seededPhotos, [], "https://example.com/cat.jpg", "",
      .idle⟩ "client:1" "now").2 "https://example.com/cat.jpg" (by decide)⟩

end PhotoGallery

namespace PhotoGallery

theorem char_ofNat_toNat (c : Char) : Char.ofNat c.toNat = c := by
  unfold Char.ofNat
  split
  case isTrue h =>
    apply Char.ext
    apply UInt32.ext
    rfl
  case isFalse h => exact absurd c.valid h

theorem hexVal_hexDigitChar (k : Nat) (h : k < 16) :
    hexVal (hexDigitChar k) = some k := by
  have hall : ∀ m, m < 16 → hexVal (hexDigitChar m) = some m := by decide
  exact hall k h

theorem parseStringBody_escChar (c : Char) (tail : List Char)
    (res : List Char × List Char) (h : parseStringBody tail = some res) :
    parseStringBody (escChar c ++ tail) = some (c :: res.1, res.2) := by
  by_cases h1 : c = '"'
  · subst h1
    simp only [escChar, if_pos rfl]
    rw [parseStringBody.eq_def]
    simp [unescape, h]
  by_cases h2 : c = '\\'
  · subst h2
    simp only [escChar]
    norm_num
    rw [parseStringBody.eq_def]
    simp [unescape, h]
  by_cases h3 : c = '\x08'
  · subst h3
    simp only [escChar]
    norm_num
    rw [parseStringBody.eq_def]
    simp [unescape, h]
  by_cases h4 : c = '\x0c'
  · subst h4
    simp only [escChar]
    norm_num
    rw [parseStringBody.eq_def]
    simp [unescape, h]
  by_cases h5 : c = '\n'
  · subst h5
    simp only [escChar]
    norm_num
    rw [parseStringBody.eq_def]
    simp [unescape, h]
  by_cases h6 : c = '\r'
  · subst h6
    simp only [escChar]
    norm_num
    rw [parseStringBody.eq_def]
    simp [unescape, h]
  by_cases h7 : c = '\t'
  · subst h7
    simp only [escChar]
    norm_num
    rw [parseStringBody.eq_def]
    simp [unescape, h]
  by_cases h8 : c.toNat < 32
  · have e1 : hexVal (hexDigitChar (c.toNat / 16)) = some (c.toNat / 16) :=
      hexVal_hexDigitChar _ (by omega)
    have e2 : hexVal (hexDigitChar (c.toNat % 16)) = some (c.toNat % 16) :=
      hexVal_hexDigitChar _ (by omega)
    have z : hexVal '0' = some 0 := by decide
    simp only [escChar, h1, h2, h3, h4, h5, h6, h7, h8, if_neg, if_pos,
      if_false, if_true, ite_false, ite_true]
    rw [parseStringBody.eq_def]
    simp [z, e1, e2, h]
    rw [show c.toNat / 16 * 16 + c.toNat % 16 = c.toNat by omega]
    exact char_ofNat_toNat c
  · simp only [escChar, h1, h2, h3, h4, h5, h6, h7, h8, ite_false, ite_true]
    rw [parseStringBody.eq_def]
    simp [h1, h2, h8, h]

theorem parseStringBody_escStr (cs : List Char) (rest : List Char) :
    parseStringBody (escStr cs ++ '"' :: rest) = some (cs, rest) := by
  induction cs with
  | nil =>
    show parseStringBody ('"' :: rest) = some ([], rest)
    rw [parseStringBody.eq_def]
    simp
  | cons c cs ih =>
    have : escStr (c :: cs) ++ '"' :: rest =
        escChar c ++ (escStr cs ++ '"' :: rest) := by
      simp [escStr]
    rw [this, parseStringBody_escChar c _ (cs, rest) ih]

end PhotoGallery

namespace PhotoGallery

theorem string_data_append (s t : String) : (s ++ t).data = s.data ++ t.data := by
  cases s
  cases t
  rfl

theorem string_mk_data (s : String) : String.mk s.data = s := by
  cases s
  rfl

theorem skipWs_quote (xs : List Char) : skipWs ('"' :: xs) = '"' :: xs := rfl

theorem parseJsonValue_quote (f : Nat) (s : String) (tail : List Char) :
    parseJsonValue (f + 1) ('"' :: (escStr s.data ++ '"' :: tail)) =
      some (.str s, tail) := by
  simp only [parseJsonValue, skipWs_quote]
  simp [parseStringBody_escStr, string_mk_data]


theorem skipWs_comma (xs : List Char) : skipWs (',' :: xs) = ',' :: xs := rfl

theorem skipWs_rbracket (xs : List Char) : skipWs (']' :: xs) = ']' :: xs := rfl

theorem parseJsonElements_succ (f : Nat) (cs : List Char) :
    parseJsonElements (f + 1) cs =
      (parseJsonValue f cs).bind (fun pv =>
        match skipWs pv.2 with
        | ',' :: r2 => (parseJsonElements f r2).map (fun p => (pv.1 :: p.1, p.2))
        | ']' :: r2 => some ([pv.1], r2)
        | _ => none) := by
  simp only [parseJsonElements]

theorem parseJsonElements_quotes (l : List String) (fuel : Nat)
    (rest : List Char) (hl : l ≠ []) (hfuel : l.length + 1 ≤ fuel) :
    parseJsonElements fuel
        ((jsJoin "," (l.map jsonQuote)).data ++ ']' :: rest) =
      some (l.map (fun s => JsValue.str s), rest) := by
  induction l generalizing fuel with
  | nil => exact absurd rfl hl
  | cons s l ih =>
    obtain ⟨f, rfl⟩ : ∃ f, fuel = f + 1 := ⟨fuel - 1, by omega⟩
    have hf2 : ∃ f2, f = f2 + 1 := ⟨f - 1, by simp at hfuel; omega⟩
    cases l with
    | nil =>
      have hshape : (jsJoin "," ([s].map jsonQuote)).data ++ ']' :: rest =
          '"' :: (escStr s.data ++ '"' :: (']' :: rest)) := by
        simp [jsJoin, jsonQuote]
      rw [hshape, parseJsonElements_succ]
      obtain ⟨f2, rfl⟩ := hf2
      rw [parseJsonValue_quote]
      simp only [Option.some_bind]
      rw [skipWs_rbracket]
      rfl
    | cons s2 l2 =>
      have hshape : (jsJoin "," ((s :: s2 :: l2).map jsonQuote)).data ++
            ']' :: rest =
          '"' :: (escStr s.data ++ '"' ::
            (',' :: ((jsJoin "," ((s2 :: l2).map jsonQuote)).data ++
              ']' :: rest))) := by
        show (jsonQuote s ++ "," ++ jsJoin "," ((s2 :: l2).map jsonQuote)).data
            ++ ']' :: rest = _
        simp [string_data_append, jsonQuote]
      rw [hshape, parseJsonElements_succ]
      obtain ⟨f2, rfl⟩ := hf2
      rw [parseJsonValue_quote]
      simp only [Option.some_bind]
      rw [skipWs_comma]
      show (parseJsonElements (f2 + 1)
          ((jsJoin "," ((s2 :: l2).map jsonQuote)).data ++ ']' :: rest)).map
          (fun p => (JsValue.str s :: p.1, p.2)) = _
      rw [ih (f2 + 1) (by simp) (by simp at hfuel ⊢; omega)]
      rfl


theorem skipWs_lbracket (xs : List Char) : skipWs ('[' :: xs) = '[' :: xs := rfl

theorem parseJsonValue_lbracket (f : Nat) (xs : List Char) :
    parseJsonValue (f + 1) ('[' :: xs) =
      (match skipWs xs with
        | ']' :: r => some (.arr [], r)
        | cs2 => (parseJsonElements f cs2).map (fun p => (.arr p.1, p.2))) := by
  rfl

theorem jsonQuote_data_cons (s : String) :
    (jsonQuote s).data = '"' :: (escStr s.data ++ ['"']) := rfl

theorem join_quotes_head (s : String) (l2 : List String) :
    ∃ t, (jsJoin "," ((s :: l2).map jsonQuote)).data = '"' :: t := by
  cases l2 with
  | nil =>
    refine ⟨escStr s.data ++ ['"'], ?_⟩
    simp [jsJoin, jsonQuote_data_cons]
  | cons s3 l3 =>
    refine ⟨escStr s.data ++ ['"'] ++
      (',' :: (jsJoin "," ((s3 :: l3).map jsonQuote)).data), ?_⟩
    show (jsonQuote s ++ "," ++ jsJoin "," ((s3 :: l3).map jsonQuote)).data = _
    simp [string_data_append, jsonQuote_data_cons]

theorem jsonQuote_length_pos (s : String) : 1 <= (jsonQuote s).data.length := by
  simp [jsonQuote]

theorem join_quotes_length (l : List String) :
    l.length <= (jsJoin "," (l.map jsonQuote)).data.length := by
  induction l with
  | nil => simp
  | cons s l ih =>
    cases l with
    | nil =>
      have := jsonQuote_length_pos s
      simpa [jsJoin] using this
    | cons s2 l2 =>
      have hs : jsJoin "," ((s :: s2 :: l2).map jsonQuote) =
          jsonQuote s ++ "," ++ jsJoin "," ((s2 :: l2).map jsonQuote) := rfl
      have := jsonQuote_length_pos s
      rw [hs]
      simp only [string_data_append, List.length_append]
      simp at ih ⊢
      omega

theorem jsonParse_writeFavorites (l : List String) :
    jsonParse (writeFavoritesToStorage l) =
      some (.arr (l.map (fun s => JsValue.str s))) := by
  cases l with
  | nil => rfl
  | cons s l2 =>
    unfold jsonParse
    have hdata : (writeFavoritesToStorage (s :: l2)).data =
        '[' :: ((jsJoin "," ((s :: l2).map jsonQuote)).data ++ [']']) := by
      unfold writeFavoritesToStorage
      simp [string_data_append]
    rw [hdata]
    rw [show ('[' :: ((jsJoin "," ((s :: l2).map jsonQuote)).data ++
          [']'])).length + 2 =
        (('[' :: ((jsJoin "," ((s :: l2).map jsonQuote)).data ++
          [']'])).length + 1) + 1 from rfl]
    rw [parseJsonValue_lbracket]
    obtain ⟨t, ht⟩ := join_quotes_head s l2
    have hJ : (jsJoin "," ((s :: l2).map jsonQuote)).data ++ [']'] =
        '"' :: (t ++ [']']) := by
      rw [ht]
      simp
    rw [hJ, skipWs_quote]
    show (match (parseJsonElements
          (('[' :: '"' :: (t ++ [']'])).length + 1)
          ('"' :: (t ++ [']']))).map (fun p => (JsValue.arr p.1, p.2)) with
      | some (v, rest) => if skipWs rest = [] then some v else none
      | none => none) = _
    rw [← hJ]
    have hb := join_quotes_length (s :: l2)
    rw [parseJsonElements_quotes (s :: l2) _ [] (by simp)
      (by simp at hb ⊢; omega)]
    rfl

end PhotoGallery

namespace PhotoGallery

theorem foldl_setAdd (l : List String) (acc : List String) (hd : l.Nodup)
    (hsep : ∀ x ∈ l, x ∉ acc) : l.foldl setAdd acc = acc ++ l := by
  induction l generalizing acc with
  | nil => simp
  | cons a l ih =>
    simp only [List.foldl_cons]
    have ha : setAdd acc a = acc ++ [a] := by
      unfold setAdd
      rw [if_neg (by simpa using hsep a (List.mem_cons_self a l))]
    rw [ha, ih (acc ++ [a]) hd.of_cons]
    · simp
    · intro x hx
      simp only [List.mem_append, List.mem_singleton]
      rintro (hacc | hrfl)
      · exact hsep x (List.mem_cons_of_mem a hx) hacc
      · exact (List.nodup_cons.mp hd).1 (hrfl ▸ hx)

theorem setFromList_nodup (l : List String) (h : l.Nodup) :
    setFromList l = l := by
  unfold setFromList
  simpa using foldl_setAdd l [] h (by simp)

theorem toggleFavorite_nodup (photoId : String) (l : List String)
    (h : l.Nodup) : (toggleFavorite photoId l).Nodup := by
  unfold toggleFavorite setHas setDelete setAdd
  by_cases hc : l.contains photoId
  · simp only [hc, if_pos]
    exact h.erase photoId
  · simp only [hc, Bool.false_eq_true, if_neg, not_false_iff]
    rw [List.nodup_append]
    refine ⟨h, List.nodup_singleton _, ?_⟩
    intro x hx
    simp only [List.mem_singleton]
    intro hrfl
    exact absurd (by simpa using hx) (by simpa [hrfl] using hc)

theorem readFavorites_writeFavorites (l : List String) (h : l.Nodup) :
    readFavoritesFromStorage (some (writeFavoritesToStorage l)) = l := by
  unfold readFavoritesFromStorage
  have hne : (writeFavoritesToStorage l == "") = false := by
    have hdata : (writeFavoritesToStorage l).data ≠ [] := by
      unfold writeFavoritesToStorage
      rw [string_data_append, string_data_append]
      simp
    rw [beq_eq_decide]
    simp only [decide_eq_false_iff_not]
    intro hcontra
    exact hdata (by rw [hcontra])
  show (if (writeFavoritesToStorage l == "") = true then []
    else match jsonParse (writeFavoritesToStorage l) with
      | some (JsValue.arr xs) => setFromList (List.map jsToString xs)
      | _ => []) = l
  rw [hne]
  simp only [Bool.false_eq_true, if_false]
  rw [jsonParse_writeFavorites]
  show setFromList ((l.map (fun s => JsValue.str s)).map jsToString) = l
  have hmap : (l.map (fun s => JsValue.str s)).map jsToString = l := by
    rw [List.map_map]
    exact List.map_id'' (fun s => rfl) l
  rw [hmap, setFromList_nodup l h]

end PhotoGallery

namespace PhotoGallery

/-- Claim C5: toggling an identifier flips its membership in the favorites set,
toggling it twice restores the original membership, and after the change
the persisted entry is the serialization of the new set and parses back to
exactly that set (write-through on every change). -/
theorem toggleFavorite_spec (favs : List String) (photoId : String)
    (st : Option String) (h : favs.Nodup) :
    (setHas (toggleFavorite photoId favs) photoId = !(setHas favs photoId)) ∧
    (∀ x, x ∈ toggleFavorite photoId (toggleFavorite photoId favs) ↔
      x ∈ favs) ∧
    ((applyToggleFavorite photoId ⟨favs, st⟩).storageEntry =
      some (writeFavoritesToStorage (toggleFavorite photoId favs))) ∧
    (readFavoritesFromStorage
        (applyToggleFavorite photoId ⟨favs, st⟩).storageEntry =
      toggleFavorite photoId favs) := by
  refine ⟨?_, ?_, rfl,
    readFavorites_writeFavorites _ (toggleFavorite_nodup _ _ h)⟩
  · unfold toggleFavorite setHas setDelete setAdd
    by_cases hc : favs.contains photoId
    · rw [if_pos (by simpa [setHas] using hc), hc]
      rw [Bool.not_true]
      simp [h.not_mem_erase]
    · rw [if_neg (by simpa [setHas] using hc),
        (by simpa using hc : favs.contains photoId = false)]
      rw [Bool.not_false]
      simp
  · intro x
    by_cases hc : favs.contains photoId
    · have hmem : photoId ∈ favs := by simpa using hc
      have h1 : toggleFavorite photoId favs = favs.erase photoId := by
        unfold toggleFavorite
        rw [if_pos (by simpa [setHas] using hc)]
        rfl
      have hc2 : ((favs.erase photoId).contains photoId) = false := by
        simp [h.not_mem_erase]
      have h2 : toggleFavorite photoId (favs.erase photoId) =
          favs.erase photoId ++ [photoId] := by
        unfold toggleFavorite
        rw [if_neg (by simp [setHas, h.not_mem_erase])]
        unfold setAdd
        rw [if_neg (by simp [h.not_mem_erase])]
      rw [h1, h2]
      by_cases hx : x = photoId
      · subst hx
        simp [hmem]
      · simp only [List.mem_append, List.mem_singleton, hx, or_false]
        rw [h.mem_erase_iff]
        simp [hx]
    · have hnmem : photoId ∉ favs := by simpa using hc
      have h1 : toggleFavorite photoId favs = favs ++ [photoId] := by
        unfold toggleFavorite
        rw [if_neg (by simpa [setHas] using hc)]
        unfold setAdd
        rw [if_neg (by simpa using hc)]
      have hc2 : ((favs ++ [photoId]).contains photoId) = true := by simp
      have h2 : toggleFavorite photoId (favs ++ [photoId]) =
          (favs ++ [photoId]).erase photoId := by
        unfold toggleFavorite
        rw [if_pos (by simp [setHas])]
        rfl
      have h3 : (favs ++ [photoId]).erase photoId = favs := by
        rw [List.erase_append_right _ hnmem]
        simp
      rw [h1, h2, h3]

end PhotoGallery

namespace PhotoGallery

theorem toggleFavorite_spec_witness :
    (setHas (toggleFavorite "sea" ["sea", "forest"]) "sea" =
      !(setHas ["sea", "forest"] "sea")) ∧
    ("forest" ∈ toggleFavorite "sea" (toggleFavorite "sea" ["sea", "forest"]) ↔
      "forest" ∈ ["sea", "forest"]) ∧
    ((applyToggleFavorite "sea" ⟨["sea", "forest"], none⟩).storageEntry =
      some (writeFavoritesToStorage (toggleFavorite "sea" ["sea", "forest"]))) ∧
    (readFavoritesFromStorage
        (applyToggleFavorite "sea" ⟨["sea", "forest"], none⟩).storageEntry =
      toggleFavorite "sea" ["sea", "forest"]) :=
  ⟨(toggleFavorite_spec ["sea", "forest"] "sea" none (by decide)).1,
    (toggleFavorite_spec ["sea", "forest"] "sea" none (by decide)).2.1 "forest",
    (toggleFavorite_spec ["sea", "forest"] "sea" none (by decide)).2.2.1,
    (toggleFavorite_spec ["sea", "forest"] "sea" none (by decide)).2.2.2⟩

/-- Claim C8: reading the persisted favorites tolerates a missing entry, an empty
value, a value the JSON parser rejects and a parsed value that is not an
array, giving the empty set in each case; a stored JSON array gives the set
of its elements coerced to strings. -/
theorem readFavoritesFromStorage_spec :
    (readFavoritesFromStorage none = []) ∧
    (readFavoritesFromStorage (some "") = []) ∧
    (∀ s, jsonParse s = none → readFavoritesFromStorage (some s) = []) ∧
    (∀ s v, jsonParse s = some v → (∀ xs, v ≠ JsValue.arr xs) →
      readFavoritesFromStorage (some s) = []) ∧
    (∀ s xs, jsonParse s = some (JsValue.arr xs) →
      readFavoritesFromStorage (some s) =
        setFromList (xs.map jsToString)) := by
  refine ⟨rfl, rfl, ?_, ?_, ?_⟩
  · intro s hp
    show (if (s == "") = true then []
      else match jsonParse s with
        | some (JsValue.arr xs) => setFromList (List.map jsToString xs)
        | _ => []) = []
    by_cases hs : s = ""
    · rw [if_pos (by simp [hs])]
    · rw [if_neg (by simp [hs]), hp]
  · intro s v hp hv
    have hs : s ≠ "" := by
      intro hcontra
      rw [hcontra] at hp
      exact Option.noConfusion hp
    show (if (s == "") = true then []
      else match jsonParse s with
        | some (JsValue.arr xs) => setFromList (List.map jsToString xs)
        | _ => []) = []
    rw [if_neg (by simp [hs]), hp]
    cases v with
    | null => rfl
    | boolVal b => rfl
    | num n => rfl
    | str s2 => rfl
    | arr xs => exact absurd rfl (hv xs)
    | obj ms => rfl
  · intro s xs hp
    have hs : s ≠ "" := by
      intro hcontra
      rw [hcontra] at hp
      exact Option.noConfusion hp
    show (if (s == "") = true then []
      else match jsonParse s with
        | some (JsValue.arr ys) => setFromList (List.map jsToString ys)
        | _ => []) = _
    rw [if_neg (by simp [hs]), hp]

theorem readFavoritesFromStorage_spec_witness :
    (readFavoritesFromStorage (some "not json") = []) ∧
    (readFavoritesFromStorage (some "42") = []) ∧
    (readFavoritesFromStorage (some "[\"a\", 1, true, null, \"a\"]") =
      ["a", "1", "true", "null"]) :=
  ⟨readFavoritesFromStorage_spec.2.2.1 "not json" rfl,
    readFavoritesFromStorage_spec.2.2.2.1 "42" (JsValue.num 42) rfl
      (fun xs hcontra => JsValue.noConfusion hcontra),
    Eq.trans
      (readFavoritesFromStorage_spec.2.2.2.2 "[\"a\", 1, true, null, \"a\"]"
        [JsValue.str "a", JsValue.num 1, JsValue.boolVal true, JsValue.null,
          JsValue.str "a"] rfl)
      (by decide)⟩

end PhotoGallery
